import Mathlib

/-!
Verification development for the scout-claims real-time transcription engine.

The definitions below are a shallow embedding of the streaming engine in
`src/src/modules/transcription.py` (class `FireworksTranscription`) and of the
live audio path `process_audio_stream` in `src/src/app.py`.

Modelling conventions:
* Python `float` arithmetic is modelled exactly over `ℚ`; the stated
  counterexamples use inputs at which the floating-point computation is exact.
* The Python dict `self.segments` is modelled as an insertion-ordered
  association list with unique keys, which is exactly a Python dict's
  observable behaviour.  Segment ids are modelled as `Nat` (the wire contract
  declares them unsigned integers).
* The websocket handle `self.websocket_client` is `some ()`/`none`-like and is
  modelled as a `Bool` recording whether the handle is present.
* I/O effects (frames actually written to the socket) are returned as explicit
  lists; exceptions that the Python code catches are modelled by total
  functions returning the state the handler leaves behind.
-/

/-- A single entry of the `segments` array of an inbound JSON frame.
`good i t` is an object carrying both an `"id"` and a `"text"` field;
`bad` is an object missing one of them, so that `segment["id"]` /
`segment["text"]` raises `KeyError` when the handler touches it. -/
inductive JsonSeg where
  | good (id_ : Nat) (text : String)
  | bad
deriving Repr, DecidableEq

/-- An inbound websocket frame, as seen by `FireworksTranscription._on_message`
after the `json.loads` attempt:
* `undecodable` — `json.loads` raises `JSONDecodeError`;
* `checkpointFinal` — the decoded object has `"checkpoint_id" == "final"`;
* `withSegments segs` — the decoded object has a `"segments"` array;
* `other` — any other decoded object (no final checkpoint, no segments key). -/
inductive Frame where
  | undecodable
  | checkpointFinal
  | withSegments (segs : List JsonSeg)
  | other
deriving Repr, DecidableEq

/-- The mutable state of a `FireworksTranscription` instance that the claims
are about: `is_connected`, `websocket_client` (presence of the handle),
`segments` (the id → text dict, as an insertion-ordered assoc list) and
`_stop_event`. -/
structure EngineState where
  isConnected : Bool
  websocketClient : Bool
  segments : List (Nat × String)
  stopEvent : Bool
deriving Repr, DecidableEq

/-- Engine state right after `__init__` / a fresh successful connect:
empty segment dict, stop event clear, connected with a live handle. -/
def initialEngine : EngineState :=
  { isConnected := true, websocketClient := true, segments := [], stopEvent := false }

/-- Model of `FireworksTranscription._disconnect` (transcription.py lines 85–95):
sets the stop event, clears `is_connected`, and — when a handle is present —
closes and releases it.  The second component records whether the underlying
`websocket_client.close()` was actually invoked (it is skipped when the handle
is already `None`). -/
def disconnectEff (st : EngineState) : EngineState × Bool :=
  ({ st with stopEvent := true, isConnected := false, websocketClient := false },
   st.websocketClient)

/-- State part of `_disconnect`. -/
def disconnect (st : EngineState) : EngineState := (disconnectEff st).1

/-- Model of `FireworksTranscription._send_audio_chunk` (transcription.py lines 144–154).
`writeOk` models whether the underlying socket write succeeds; the result is
the returned `Bool` together with the list of binary frames actually put on
the wire.  The function returns `False` (never raises) when not connected or
when the handle is gone, and `False` on a write failure (the exception is
caught and logged). -/
def sendAudioChunk (st : EngineState) (chunk : List Int) (writeOk : Bool) :
    Bool × List (List Int) :=
  if !st.isConnected || !st.websocketClient then (false, [])
  else if writeOk then (true, [chunk])
  else (false, [])

/-- The spec's `Connected` state for this engine: the connected flag is set and
the socket handle is present. -/
def EngineState.connState (st : EngineState) : Bool :=
  st.isConnected && st.websocketClient

/-- One iteration of the `for segment in data["segments"]` loop body in
`_on_message` (transcription.py lines 187–190): `self.segments[segment_id] = text`,
i.e. overwrite-in-place when the key exists, append otherwise (Python dicts
keep insertion order). -/
def updateSegment (segs : List (Nat × String)) (id_ : Nat) (text : String) :
    List (Nat × String) :=
  if segs.any (fun p => p.1 == id_) then
    segs.map (fun p => if p.1 = id_ then (id_, text) else p)
  else
    segs ++ [(id_, text)]

/-- The segment-update loop of `_on_message` with Python exception semantics:
entries are applied left to right; the first entry missing an `"id"`/`"text"`
field raises `KeyError`, which aborts the loop (the exception is caught by the
surrounding `except Exception`), leaving the updates already made in place. -/
def applySegments (segs : List (Nat × String)) : List JsonSeg → List (Nat × String)
  | [] => segs
  | JsonSeg.good i t :: rest => applySegments (updateSegment segs i t) rest
  | JsonSeg.bad :: _ => segs

/-- Truthiness of `text.strip()` in Python: non-empty after stripping
whitespace, i.e. the string contains at least one non-whitespace character. -/
def pyNonblank (t : String) : Bool :=
  t.data.any (fun c => !c.isWhitespace)

/-- Key order used to sort the segment dict items:
`sorted(self.segments.items(), key=lambda x: int(x[0]))`. -/
def keyLE (a b : Nat × String) : Prop := a.1 ≤ b.1

instance : DecidableRel keyLE := fun a b => inferInstanceAs (Decidable (a.1 ≤ b.1))

instance : IsTotal (Nat × String) keyLE := ⟨fun a b => Nat.le_total a.1 b.1⟩

instance : IsTrans (Nat × String) keyLE := ⟨fun _ _ _ h h' => Nat.le_trans h h'⟩

/-- Model of `FireworksTranscription._build_complete_text` (transcription.py lines
208–214): sort the dict items by numeric id ascending, drop items whose text
is blank, join the texts with a single space.  (The dict keys are unique, so
any sort by key agrees with Python's stable `sorted`.) -/
def buildCompleteText (segs : List (Nat × String)) : String :=
  if segs.isEmpty then ""
  else
    String.intercalate " "
      (((segs.insertionSort keyLE).filter (fun p => pyNonblank p.2)).map Prod.snd)

/-- Model of `FireworksTranscription._on_message` (transcription.py lines 173–202):
a decode failure is caught and ignored; a `"final"` checkpoint triggers
`_disconnect`; a segments frame updates the dict (partially, if an entry is
structurally malformed — the `KeyError` is caught by `except Exception`);
anything else is a no-op.  The notification callback only reads the state and
is not part of it. -/
def onMessage (st : EngineState) (f : Frame) : EngineState :=
  match f with
  | Frame.undecodable => st
  | Frame.checkpointFinal => disconnect st
  | Frame.withSegments segs => { st with segments := applySegments st.segments segs }
  | Frame.other => st

/-- A frame is malformed when it fails to parse as the expected structured
data: either `json.loads` itself fails, or the decoded `segments` array
contains an entry missing its `"id"`/`"text"` fields. -/
def isMalformed : Frame → Bool
  | Frame.undecodable => true
  | Frame.withSegments segs => segs.any (fun s => s == JsonSeg.bad)
  | _ => false

/-- Running the background receive loop over a list of inbound frames. -/
def runSession (st : EngineState) (frames : List Frame) : EngineState :=
  frames.foldl onMessage st

/-- Model of `FireworksTranscription._get_final_text` (transcription.py lines 216–219),
which is what `transcribe_audio_file` returns after the session ends. -/
def getFinalText (st : EngineState) : String :=
  buildCompleteText st.segments

/-- Does a frame carry a `segments` array? -/
def isSegmentsFrame : Frame → Bool
  | Frame.withSegments _ => true
  | _ => false

/-- The well-formed leading entries of a `segments` array: everything before
the first structurally malformed entry (which is where the `KeyError` fires). -/
def goodLead : List JsonSeg → List (Nat × String)
  | [] => []
  | JsonSeg.good i t :: rest => (i, t) :: goodLead rest
  | JsonSeg.bad :: _ => []

lemma applySegments_eq_foldl_goodLead (segs : List (Nat × String)) (js : List JsonSeg) :
    applySegments segs js = (goodLead js).foldl (fun s m => updateSegment s m.1 m.2) segs := by
  induction js generalizing segs with
  | nil => rfl
  | cons j rest ih => cases j <;> simp [applySegments, goodLead, ih]

lemma not_any_key (segs : List (Nat × String)) (i : Nat)
    (h : segs.any (fun p => p.1 == i) = false) : ∀ p ∈ segs, p.1 ≠ i := by
  intro p hp
  simp only [List.any_eq_false] at h
  simpa using h p hp

lemma updateSegment_idem (segs : List (Nat × String)) (i : Nat) (t : String) :
    updateSegment (updateSegment segs i t) i t = updateSegment segs i t := by
  cases h : segs.any (fun p => p.1 == i) with
  | true =>
    have hmem : ((segs.map (fun p => if p.1 = i then (i, t) else p)).any
        (fun p => p.1 == i)) = true := by
      simp only [List.any_eq_true] at h ⊢
      obtain ⟨p, hp, hpi⟩ := h
      refine ⟨(i, t), List.mem_map.mpr ⟨p, hp, ?_⟩, by simp⟩
      have hp1 : p.1 = i := by simpa using hpi
      simp [hp1]
    simp only [updateSegment, h, hmem, if_true, List.map_map]
    refine List.map_congr_left fun p _ => ?_
    by_cases hpi : p.1 = i <;> simp [Function.comp, hpi]
  | false =>
    have h' := not_any_key segs i h
    have hsegs : segs.map (fun p => if p.1 = i then (i, t) else p) = segs := by
      have h2 : segs.map (fun p => if p.1 = i then (i, t) else p) = segs.map id :=
        List.map_congr_left fun p hp => by simp [h' p hp]
      simpa using h2
    have happ : ((segs ++ [(i, t)]).any (fun p => p.1 == i)) = true := by simp
    simp [updateSegment, h, happ, hsegs]

/-- C5: applying the same segment update `{id, text}` twice in succession via
`_on_message` leaves the whole engine state — in particular the segment map —
and the assembled transcript text unchanged relative to applying it once. -/
theorem C5_segment_update_idempotent (st : EngineState) (i : Nat) (t : String) :
    onMessage (onMessage st (Frame.withSegments [JsonSeg.good i t]))
        (Frame.withSegments [JsonSeg.good i t])
      = onMessage st (Frame.withSegments [JsonSeg.good i t]) ∧
    buildCompleteText (onMessage (onMessage st (Frame.withSegments [JsonSeg.good i t]))
        (Frame.withSegments [JsonSeg.good i t])).segments
      = buildCompleteText (onMessage st (Frame.withSegments [JsonSeg.good i t])).segments := by
  have hstate : onMessage (onMessage st (Frame.withSegments [JsonSeg.good i t]))
      (Frame.withSegments [JsonSeg.good i t])
      = onMessage st (Frame.withSegments [JsonSeg.good i t]) := by
    simp [onMessage, applySegments, updateSegment_idem]
  exact ⟨hstate, by rw [hstate]⟩

/-- C7: `_send_audio_chunk` returns `false` (without raising) whenever the
connection is not in the `Connected` state; when connected it forwards the
chunk as one binary frame and returns `true`, and a socket write failure
yields `false` with nothing delivered. -/
theorem C7_send_contract (st : EngineState) (chunk : List Int) (writeOk : Bool) :
    (st.connState = false → sendAudioChunk st chunk writeOk = (false, [])) ∧
    (st.connState = true → writeOk = true →
      sendAudioChunk st chunk writeOk = (true, [chunk])) ∧
    (st.connState = true → writeOk = false →
      sendAudioChunk st chunk writeOk = (false, [])) := by
  cases hc : st.isConnected <;> cases hw : st.websocketClient <;>
    cases writeOk <;> simp [sendAudioChunk, EngineState.connState, hc, hw]

theorem C7_send_contract_witness :
    sendAudioChunk (disconnect initialEngine) [1, 2] true = (false, []) ∧
    sendAudioChunk initialEngine [1, 2] true = (true, [[1, 2]]) ∧
    sendAudioChunk initialEngine [1, 2] false = (false, []) :=
  ⟨(C7_send_contract (disconnect initialEngine) [1, 2] true).1 (by decide),
   (C7_send_contract initialEngine [1, 2] true).2.1 (by decide) rfl,
   (C7_send_contract initialEngine [1, 2] false).2.2 (by decide) rfl⟩

/-- C8: `_disconnect` is idempotent — a second close on an already-closed
connection leaves the state exactly as after the first close (connected flag
false, handle released, stop event set) and does not even touch the
underlying socket again (no second `close()` call). -/
theorem C8_close_idempotent (st : EngineState) :
    disconnectEff (disconnect st) = (disconnect st, false) := by
  simp [disconnect, disconnectEff]

/-- C9: after `_disconnect`, the connected flag is false and the socket handle
is cleared, so any subsequent `_send_audio_chunk` returns `false` and puts
nothing on the wire (sends do not mutate the state, so this persists until a
new connect). -/
theorem C9_no_send_after_close (st : EngineState) (chunk : List Int) (writeOk : Bool) :
    (disconnect st).isConnected = false ∧ (disconnect st).websocketClient = false ∧
    sendAudioChunk (disconnect st) chunk writeOk = (false, []) := by
  simp [disconnect, disconnectEff, sendAudioChunk]

lemma runSession_segments_of_no_segments (st : EngineState) (frames : List Frame)
    (h : ∀ f ∈ frames, isSegmentsFrame f = false) :
    (runSession st frames).segments = st.segments := by
  induction frames generalizing st with
  | nil => rfl
  | cons f fs ih =>
    have hf := h f (by simp)
    have hfs : ∀ g ∈ fs, isSegmentsFrame g = false := fun g hg => h g (by simp [hg])
    cases f with
    | undecodable => simpa [runSession, onMessage] using ih st hfs
    | checkpointFinal =>
      have := ih (disconnect st) hfs
      simpa [runSession, onMessage, disconnect, disconnectEff] using this
    | withSegments segs => simp [isSegmentsFrame] at hf
    | other => simpa [runSession, onMessage] using ih st hfs

/-- C10: a batch session that ends with no segments ever received yields the
empty string from the final-text computation (a total function — no error
value, no exception). -/
theorem C10_empty_session_empty_text (frames : List Frame)
    (h : ∀ f ∈ frames, isSegmentsFrame f = false) :
    getFinalText (runSession initialEngine frames) = "" := by
  rw [getFinalText, runSession_segments_of_no_segments initialEngine frames h]
  rfl

theorem C10_empty_session_empty_text_witness :
    getFinalText (runSession initialEngine [Frame.checkpointFinal, Frame.undecodable]) = "" :=
  C10_empty_session_empty_text [Frame.checkpointFinal, Frame.undecodable] (by decide)

/-- C3 counterexample: a frame that fails to parse as the expected structured
data — valid JSON whose second segment entry is missing its fields — is *not*
ignored wholesale: the handler applies the first (well-formed) segment before
the `KeyError` aborts the loop, so the segment map changes. -/
theorem C3_counterexample :
    isMalformed (Frame.withSegments [JsonSeg.good 1 "hi", JsonSeg.bad]) = true ∧
    (onMessage initialEngine (Frame.withSegments [JsonSeg.good 1 "hi", JsonSeg.bad])).segments
      ≠ initialEngine.segments := by
  decide

/-- C3 (amended): a frame on which `json.loads` fails is logged and ignored —
the engine state (segment map included) is exactly what it was before, and the
handler never raises (it is a total function).  A frame that decodes but whose
`segments` array contains a structurally malformed entry also does not crash
the loop, but it applies exactly the well-formed segments preceding the first
malformed entry. -/
theorem C3_malformed_frame_handling (st : EngineState) (segs : List JsonSeg) :
    onMessage st Frame.undecodable = st ∧
    (onMessage st (Frame.withSegments segs)).segments
      = (goodLead segs).foldl (fun s m => updateSegment s m.1 m.2) st.segments := by
  exact ⟨rfl, by simp [onMessage, applySegments_eq_foldl_goodLead]⟩

/-! ### Audio frame normalization (app.py `process_audio_stream`, transcription.py
`_process_audio_file`) -/

/-- Numeric dtype of the incoming sample buffer, as discriminated by
`process_audio_stream` (app.py lines 274–284).  `otherDtype` covers the final
`else: audio_data.astype(np.float32)` arm, a value-preserving cast. -/
inductive AudioDType where
  | float32
  | int16
  | int32
  | otherDtype
deriving Repr, DecidableEq

/-- An incoming mono audio frame `(sample_rate, audio_data)` as delivered by
Gradio.  Sample values are modelled exactly over `ℚ`.  (The stereo-averaging
step, app.py lines 291–293, is not needed by any claim; frames here are mono.) -/
structure AudioFrame where
  sampleRate : Nat
  samples : List ℚ
  dtype : AudioDType
deriving Repr, DecidableEq

/-- Dtype normalization (app.py lines 274–284): int16 divides by 32768.0,
int32 divides by 2147483648.0 = 2³¹, floats pass through unchanged. -/
def normalizeSamples (dtype : AudioDType) (samples : List ℚ) : List ℚ :=
  match dtype with
  | AudioDType.float32 => samples
  | AudioDType.int16 => samples.map (fun v => v / 32768)
  | AudioDType.int32 => samples.map (fun v => v / 2147483648)
  | AudioDType.otherDtype => samples

/-- Model of `np.max(np.abs(audio_data))` for a mono buffer.  (For an empty buffer
`np.max` raises; the surrounding `except` returns the unchanged transcript, the
same observable outcome as the silence branch this value feeds.) -/
def peakAbs (l : List ℚ) : ℚ :=
  (l.map abs).foldr max 0

def TARGET_SAMPLE_RATE : Nat := 16000

/-- Model of `np.linspace(0, stop, num)`: `num` evenly spaced points from `0` to `stop`
inclusive; `np.linspace(0, stop, 1) = [0.0]`. -/
def linspace (stop : ℚ) (num : Nat) : List ℚ :=
  if num = 1 then [0]
  else (List.range num).map (fun (j : Nat) => stop * (j : ℚ) / ((num : ℚ) - 1))

/-- Model of `np.interp(x, np.arange(n), ys)` at a single query point `x`: clamp to the
ends, otherwise linearly interpolate between the two neighbouring integer grid
points.  (Only ever applied to non-empty `ys`; `np.interp` raises on an empty
grid.) -/
def interpAt (ys : List ℚ) (x : ℚ) : ℚ :=
  if x ≤ 0 then ys.headI
  else if ((ys.length : ℚ) - 1) ≤ x then (ys.getLast?).getD 0
  else
    let i : Nat := (⌊x⌋).toNat
    ys.getD i 0 + (ys.getD (i + 1) 0 - ys.getD i 0) * (x - (i : ℚ))

/-- The resampling step of `FireworksTranscription._process_audio_file`
(transcription.py lines 105–115): when the source rate differs from 16 kHz,
`new_length = int(len(audio_data) * ratio)` — Python `int()` truncates, which
on these non-negative values is the floor, i.e. `Nat` division here — and the
data is linearly interpolated at `new_length` evenly spaced positions over
`[0, len-1]`. -/
def resample (audio : List ℚ) (sampleRate : Nat) : List ℚ :=
  if sampleRate = TARGET_SAMPLE_RATE then audio
  else
    (linspace ((audio.length : ℚ) - 1)
      (audio.length * TARGET_SAMPLE_RATE / sampleRate)).map (interpAt audio)

/-- Python 3 `round` (banker's rounding, half to even), which is what the
spec's `new_length = round(len * 16000/source_rate)` denotes. -/
def pyRound (q : ℚ) : ℤ :=
  if q - ⌊q⌋ < 1/2 then ⌊q⌋
  else if 1/2 < q - ⌊q⌋ then ⌊q⌋ + 1
  else if ⌊q⌋ % 2 = 0 then ⌊q⌋ else ⌊q⌋ + 1

lemma linspace_length (stop : ℚ) (num : Nat) : (linspace stop num).length = num := by
  rw [linspace]
  split
  · simp [*]
  · rw [List.length_map, List.length_range]

/-- C2 counterexample: a 3-sample buffer at 32 kHz.  The code computes
`int(3 * 0.5) = 1` output samples (truncation), the claim's
`round(3 * 16000/32000) = round(1.5) = 2`.  All floating-point operations are
exact at this input. -/
theorem C2_counterexample :
    (resample [0, 0, 0] 32000).length
      ≠ (pyRound ((([0, 0, 0] : List ℚ).length : ℚ) * 16000 / 32000)).toNat := by
  have h1 : (resample [0, 0, 0] 32000).length = 1 := rfl
  have hq : ((([0, 0, 0] : List ℚ).length : ℚ) * 16000 / 32000) = 3 / 2 := by
    norm_num
  have hf : ⌊(3 / 2 : ℚ)⌋ = 1 := by
    rw [Int.floor_eq_iff]
    norm_num
  have h2 : (pyRound ((([0, 0, 0] : List ℚ).length : ℚ) * 16000 / 32000)).toNat = 2 := by
    rw [hq]
    simp only [pyRound, hf]
    norm_num
    rfl
  rw [h1, h2]
  decide

/-- C2 (amended): resampling at source rate `r ≠ 16000` linearly interpolates
the input at `new_length` evenly spaced query positions over `[0, len-1]`,
where `new_length = ⌊len * 16000 / r⌋` (truncating division, not rounding).
The rate hypothesis `0 < r` excludes the division by zero on which the Python
code would raise before reaching the resampling step. -/
theorem C2_resample_length (audio : List ℚ) (r : Nat)
    (_hr : 0 < r) (hne : r ≠ TARGET_SAMPLE_RATE) :
    (resample audio r).length = audio.length * TARGET_SAMPLE_RATE / r ∧
    resample audio r
      = (linspace ((audio.length : ℚ) - 1)
          (audio.length * TARGET_SAMPLE_RATE / r)).map (interpAt audio) := by
  rw [resample, if_neg hne]
  exact ⟨by rw [List.length_map, linspace_length], rfl⟩

theorem C2_resample_length_witness :
    (resample [1/2, 1/4, 1/8] 8000).length
      = ([1/2, 1/4, 1/8] : List ℚ).length * TARGET_SAMPLE_RATE / 8000 :=
  (C2_resample_length [1/2, 1/4, 1/8] 8000 (by decide) (by decide)).1

/-- C6: non-floating-point samples are scaled into `[-1, 1]` by the encoding's
full-scale divisor — every int16 sample is divided by 32768 and every int32
sample by 2³¹ — and on the full int16/int32 ranges the results indeed lie in
`[-1, 1]`. -/
theorem C6_integer_scaling (xs ys : List ℤ)
    (h16 : ∀ v ∈ xs, -32768 ≤ v ∧ v ≤ 32767)
    (h32 : ∀ v ∈ ys, -2147483648 ≤ v ∧ v ≤ 2147483647) :
    normalizeSamples AudioDType.int16 (xs.map (fun (v : ℤ) => (v : ℚ)))
        = xs.map (fun (v : ℤ) => (v : ℚ) / 32768) ∧
    normalizeSamples AudioDType.int32 (ys.map (fun (v : ℤ) => (v : ℚ)))
        = ys.map (fun (v : ℤ) => (v : ℚ) / 2147483648) ∧
    (∀ q ∈ normalizeSamples AudioDType.int16 (xs.map (fun (v : ℤ) => (v : ℚ))),
      -1 ≤ q ∧ q ≤ 1) ∧
    (∀ q ∈ normalizeSamples AudioDType.int32 (ys.map (fun (v : ℤ) => (v : ℚ))),
      -1 ≤ q ∧ q ≤ 1) := by
  refine ⟨by simp [normalizeSamples], by simp [normalizeSamples], ?_, ?_⟩
  · intro q hq
    simp only [normalizeSamples] at hq
    obtain ⟨w, hw, rfl⟩ := List.mem_map.mp hq
    obtain ⟨v, hv, rfl⟩ := List.mem_map.mp hw
    obtain ⟨hlo, hhi⟩ := h16 v hv
    constructor
    · rw [le_div_iff₀ (by norm_num : (0 : ℚ) < 32768)]
      have : (-32768 : ℚ) ≤ (v : ℚ) := by exact_mod_cast hlo
      linarith
    · rw [div_le_one (by norm_num : (0 : ℚ) < 32768)]
      have : (v : ℚ) ≤ 32767 := by exact_mod_cast hhi
      linarith
  · intro q hq
    simp only [normalizeSamples] at hq
    obtain ⟨w, hw, rfl⟩ := List.mem_map.mp hq
    obtain ⟨v, hv, rfl⟩ := List.mem_map.mp hw
    obtain ⟨hlo, hhi⟩ := h32 v hv
    constructor
    · rw [le_div_iff₀ (by norm_num : (0 : ℚ) < 2147483648)]
      have : (-2147483648 : ℚ) ≤ (v : ℚ) := by exact_mod_cast hlo
      linarith
    · rw [div_le_one (by norm_num : (0 : ℚ) < 2147483648)]
      have : (v : ℚ) ≤ 2147483647 := by exact_mod_cast hhi
      linarith

theorem C6_integer_scaling_witness :
    normalizeSamples AudioDType.int16 (([-32768, 0, 32767] : List ℤ).map (fun (v : ℤ) => (v : ℚ)))
        = ([-32768, 0, 32767] : List ℤ).map (fun (v : ℤ) => (v : ℚ) / 32768) ∧
    normalizeSamples AudioDType.int32 (([-2147483648, 2147483647] : List ℤ).map
          (fun (v : ℤ) => (v : ℚ)))
        = ([-2147483648, 2147483647] : List ℤ).map (fun (v : ℤ) => (v : ℚ) / 2147483648) ∧
    (∀ q ∈ normalizeSamples AudioDType.int16 (([-32768, 0, 32767] : List ℤ).map
        (fun (v : ℤ) => (v : ℚ))), -1 ≤ q ∧ q ≤ 1) ∧
    (∀ q ∈ normalizeSamples AudioDType.int32 (([-2147483648, 2147483647] : List ℤ).map
        (fun (v : ℤ) => (v : ℚ))), -1 ≤ q ∧ q ≤ 1) :=
  C6_integer_scaling [-32768, 0, 32767] [-2147483648, 2147483647]
    (by decide) (by decide)

/-! ### The live audio path (`ClaimsAssistantApp.create_interface`, app.py) -/

/-- Engine state right after `FireworksTranscription.__init__`: no handle,
not connected, empty segment dict. -/
def freshEngine : EngineState :=
  { isConnected := false, websocketClient := false, segments := [], stopEvent := false }

/-- Model of `FireworksTranscription._connect` (transcription.py lines 53–83):
creates the websocket client (handle present from here on), starts the
background thread, and waits up to 5 s for `_on_open` to set `is_connected`.
`handshakeOk` models whether the handshake completes within the timeout; the
returned `Bool` is `self.is_connected`, and a failure is reported as `false`,
never as an exception. -/
def connect (e : EngineState) (handshakeOk : Bool) : EngineState × Bool :=
  ({ e with websocketClient := true, isConnected := handshakeOk }, handshakeOk)

/-- App-level state of the Gradio wiring: `self.is_recording`,
`self.live_transcription`, whether `self.transcription_service` exists, plus
the engine state of that service. -/
structure AppState where
  isRecording : Bool
  serviceExists : Bool
  liveTranscription : String
  engine : EngineState
deriving Repr, DecidableEq

/-- App state before any audio has arrived. -/
def initialApp : AppState :=
  { isRecording := false, serviceExists := false, liveTranscription := "",
    engine := freshEngine }

/-- Model of `initialize_transcription_service` (app.py lines 249–258): create the
service if absent (a fresh engine), then — when not yet recording — mark
recording, clear the live transcription and connect, returning `_connect`'s
result; when already recording, return `True`. -/
def initializeTranscription (st : AppState) (handshakeOk : Bool) : AppState × Bool :=
  let st1 := if st.serviceExists then st
             else { st with serviceExists := true, engine := freshEngine }
  if !st1.isRecording then
    let st2 := { st1 with isRecording := true, liveTranscription := "" }
    let c := connect st2.engine handshakeOk
    ({ st2 with engine := c.1 }, c.2)
  else (st1, true)

/-- Model of `(audio_data * 32767).astype(np.int16)` for one sample: multiply by 32767
and truncate toward zero (values from `[-1, 1]` stay in int16 range, so no
wrap-around occurs). -/
def quantize16 (samples : List ℚ) : List ℤ :=
  samples.map (fun v => if 0 ≤ v * 32767 then ⌊v * 32767⌋ else ⌈v * 32767⌉)

/-- The resampling step of `process_audio_stream` (app.py lines 295–304): like
`_process_audio_file` but guarded by `if new_length > 0:` — when the truncated
length is zero the buffer is left unresampled. -/
def appResample (audio : List ℚ) (sampleRate : Nat) : List ℚ :=
  if sampleRate = TARGET_SAMPLE_RATE then audio
  else
    let newLength := audio.length * TARGET_SAMPLE_RATE / sampleRate
    if 0 < newLength then
      (linspace ((audio.length : ℚ) - 1) newLength).map (interpAt audio)
    else audio

/-- Result of one `process_audio_stream` call: the new app state, the binary
frames put on the wire, and the string returned to the UI. -/
structure StreamResult where
  state : AppState
  sent : List (List ℤ)
  output : String
deriving Repr, DecidableEq

/-- Model of `process_audio_stream` (app.py lines 260–320) for a present mono frame:
lazily initialize/connect when not yet recording (an init failure returns an
error message), normalize the dtype to floats in `[-1, 1]`, drop the frame
when its peak absolute amplitude is below 0.01, otherwise resample to 16 kHz,
quantize to int16 and — when the service exists and is connected — send the
chunk.  `handshakeOk`/`writeOk` model the two external outcomes. -/
def processAudioStream (st : AppState) (frame : AudioFrame)
    (handshakeOk writeOk : Bool) : StreamResult :=
  let init := if !st.isRecording then initializeTranscription st handshakeOk
              else (st, true)
  if !init.2 then
    { state := init.1, sent := [],
      output := "Failed to initialize transcription service. Check your API key." }
  else
    let st1 := init.1
    let audio := normalizeSamples frame.dtype frame.samples
    if peakAbs audio < 1 / 100 then
      { state := st1, sent := [], output := st1.liveTranscription }
    else
      let chunk := quantize16 (appResample audio frame.sampleRate)
      if st1.serviceExists && st1.engine.isConnected then
        { state := st1, sent := (sendAudioChunk st1.engine chunk writeOk).2,
          output := st1.liveTranscription }
      else
        { state := st1, sent := [], output := st1.liveTranscription }

/-- A frame of digital silence. -/
def silentFrame : AudioFrame :=
  { sampleRate := 16000, samples := [0, 0, 0], dtype := AudioDType.float32 }

/-- C4 counterexample: a frame of silence (peak 0 < 0.01) arriving while no
session is recording.  It is indeed not sent, but the connection state is NOT
unchanged: the lazy initialization connects first (the silence gate runs only
after `initialize_transcription_service`), so `is_connected` flips from false
to true. -/
theorem C4_counterexample :
    peakAbs (normalizeSamples silentFrame.dtype silentFrame.samples) < 1 / 100 ∧
    (processAudioStream initialApp silentFrame true true).sent = [] ∧
    (processAudioStream initialApp silentFrame true true).state.engine.isConnected
      ≠ initialApp.engine.isConnected := by
  have hpk : peakAbs (normalizeSamples silentFrame.dtype silentFrame.samples) < 1 / 100 := by
    norm_num [peakAbs, normalizeSamples, silentFrame]
  have hpk' := hpk
  simp only [one_div] at hpk'
  refine ⟨hpk, ?_, ?_⟩
  · simp [processAudioStream, initializeTranscription, initialApp, freshEngine,
      connect, hpk']
  · simp [processAudioStream, initializeTranscription, initialApp, freshEngine,
      connect, hpk']

/-- C4 (amended): while a session is already recording, every frame whose
peak absolute amplitude (after dtype normalization to the `[-1, 1]` scale) is
below 0.01 is dropped as silence: nothing is sent and the entire app and
engine state — connection state included — is unchanged. -/
theorem C4_silent_frame_dropped (st : AppState) (frame : AudioFrame)
    (handshakeOk writeOk : Bool) (hrec : st.isRecording = true)
    (hq : peakAbs (normalizeSamples frame.dtype frame.samples) < 1 / 100) :
    processAudioStream st frame handshakeOk writeOk
      = { state := st, sent := [], output := st.liveTranscription } := by
  have hq' := hq
  simp only [one_div] at hq'
  have hneg := not_le.mpr hq'
  simp [processAudioStream, hrec, hq', hneg]

/-- A concrete mid-session state for the C4 witness. -/
def recordingApp : AppState :=
  { isRecording := true, serviceExists := true, liveTranscription := "so far",
    engine := initialEngine }

theorem C4_silent_frame_dropped_witness :
    processAudioStream recordingApp silentFrame true true
      = { state := recordingApp, sent := [], output := "so far" } :=
  C4_silent_frame_dropped recordingApp silentFrame true true rfl
    (by norm_num [peakAbs, normalizeSamples, silentFrame])

/-! ### C1: the assembled-text invariant.  Spec-side reformulation and the
bridge from the engine's segment dict to "latest text per id". -/

/-- The per-id updates a single frame actually applies (the well-formed lead
of its segments array; nothing for other frames). -/
def frameUpdates : Frame → List (Nat × String)
  | Frame.withSegments segs => goodLead segs
  | _ => []

/-- All per-id updates applied over a session, in order. -/
def sessionUpdates (frames : List Frame) : List (Nat × String) :=
  (frames.map frameUpdates).flatten

/-- Folding the dict-overwrite over a list of updates, starting empty. -/
def applyUpdates (msgs : List (Nat × String)) : List (Nat × String) :=
  msgs.foldl (fun s m => updateSegment s m.1 m.2) []

/-- Spec side: the distinct ids that have been received, ascending. -/
def sortedIds (msgs : List (Nat × String)) : List Nat :=
  ((msgs.map Prod.fst).dedup).insertionSort (· ≤ ·)

/-- Spec side: the latest text received for id `i`, if any. -/
def latestText (msgs : List (Nat × String)) (i : Nat) : Option String :=
  ((msgs.filter (fun m => m.1 == i)).map Prod.snd).getLast?

/-- The claim's assembled text, stated literally: the latest text per id,
restricted to the non-empty texts, ordered by ascending id, joined with a
single space. -/
def specAssembledClaim (msgs : List (Nat × String)) : String :=
  String.intercalate " "
    (((sortedIds msgs).filterMap (latestText msgs)).filter (fun t => t != ""))

/-- The amended assembled text: as the claim, but restricted to the texts
that are non-empty after stripping whitespace (Python's `.strip()` filter). -/
def specAssembledAmended (msgs : List (Nat × String)) : String :=
  String.intercalate " "
    (((sortedIds msgs).filterMap (latestText msgs)).filter pyNonblank)

/-- First-match association-list lookup (proof device for relating the dict
to `latestText`). -/
def lookupId : List (Nat × String) → Nat → Option String
  | [], _ => none
  | p :: rest, j => if p.1 = j then some p.2 else lookupId rest j

/-- The canonical sorted form of the spec's "latest text per id" mapping. -/
def latestEntries (msgs : List (Nat × String)) : List (Nat × String) :=
  (sortedIds msgs).map (fun i => (i, (latestText msgs i).getD ""))

/-- Strict option fallback (proof device): the first operand when present,
otherwise the second. -/
def orOpt (a b : Option String) : Option String :=
  match a with
  | some x => some x
  | none => b

lemma orOpt_some (x : String) (b : Option String) : orOpt (some x) b = some x := rfl

lemma orOpt_none (b : Option String) : orOpt none b = b := rfl

lemma lookupId_append_single (segs : List (Nat × String)) (i j : Nat) (t : String)
    (h : ∀ p ∈ segs, p.1 ≠ i) :
    lookupId (segs ++ [(i, t)]) j = if j = i then some t else lookupId segs j := by
  induction segs with
  | nil =>
    by_cases hji : j = i
    · simp [lookupId, hji]
    · simp [lookupId, hji, Ne.symm hji]
  | cons p rest ih =>
    have hp := h p (List.mem_cons_self p rest)
    have hrest : ∀ q ∈ rest, q.1 ≠ i := fun q hq => h q (List.mem_cons_of_mem p hq)
    by_cases hpj : p.1 = j
    · have hji : j ≠ i := fun hji => hp (hpj.trans hji)
      simp [lookupId, hpj, hji]
    · simp [lookupId, hpj, ih hrest]

lemma lookupId_map_overwrite (segs : List (Nat × String)) (i j : Nat) (t : String)
    (h : segs.any (fun p => p.1 == i) = true) :
    lookupId (segs.map (fun p => if p.1 = i then (i, t) else p)) j
      = if j = i then some t else lookupId segs j := by
  induction segs with
  | nil => simp at h
  | cons p rest ih =>
    by_cases hpi : p.1 = i
    · by_cases hji : j = i
      · simp [lookupId, hpi, hji]
      · have hpj : p.1 ≠ j := by
          rw [hpi]
          exact fun hij => hji hij.symm
        by_cases hrest : rest.any (fun q => q.1 == i) = true
        · simp [lookupId, hpi, Ne.symm hji, hpj, ih hrest, hji]
        · have hr : ∀ q ∈ rest, q.1 ≠ i := not_any_key rest i (Bool.eq_false_iff.mpr hrest)
          have hmap : rest.map (fun q => if q.1 = i then (i, t) else q) = rest := by
            have h2 : rest.map (fun q => if q.1 = i then (i, t) else q) = rest.map id :=
              List.map_congr_left fun q hq => by simp [hr q hq]
            simpa using h2
          simp [lookupId, hpi, Ne.symm hji, hpj, hmap, hji]
    · have hrest : rest.any (fun q => q.1 == i) = true := by
        simpa [List.any_cons, hpi] using h
      by_cases hpj : p.1 = j
      · have hji : j ≠ i := fun hji => hpi (hpj.trans hji)
        simp [lookupId, hpj, hji, hpi]
      · simp [lookupId, hpj, hpi, ih hrest]

lemma lookupId_updateSegment (segs : List (Nat × String)) (i j : Nat) (t : String) :
    lookupId (updateSegment segs i t) j = if j = i then some t else lookupId segs j := by
  unfold updateSegment
  by_cases h : segs.any (fun p => p.1 == i) = true
  · rw [if_pos h]
    exact lookupId_map_overwrite segs i j t h
  · rw [if_neg h]
    exact lookupId_append_single segs i j t (not_any_key segs i (Bool.eq_false_iff.mpr h))

lemma keys_map_overwrite (segs : List (Nat × String)) (i : Nat) (t : String) :
    (segs.map (fun p => if p.1 = i then (i, t) else p)).map Prod.fst
      = segs.map Prod.fst := by
  rw [List.map_map]
  refine List.map_congr_left fun p _ => ?_
  by_cases hpi : p.1 = i <;> simp [Function.comp, hpi]

lemma mem_keys_updateSegment (segs : List (Nat × String)) (i j : Nat) (t : String) :
    j ∈ (updateSegment segs i t).map Prod.fst
      ↔ j ∈ segs.map Prod.fst ∨ j = i := by
  unfold updateSegment
  by_cases h : segs.any (fun p => p.1 == i) = true
  · rw [if_pos h, keys_map_overwrite]
    constructor
    · exact Or.inl
    · rintro (hj | rfl)
      · exact hj
      · simp only [List.any_eq_true] at h
        obtain ⟨p, hp, hpi⟩ := h
        exact List.mem_map.mpr ⟨p, hp, by simpa using hpi⟩
  · rw [if_neg h, List.map_append]
    simp

lemma nodup_keys_updateSegment (segs : List (Nat × String)) (i : Nat) (t : String)
    (h : (segs.map Prod.fst).Nodup) :
    ((updateSegment segs i t).map Prod.fst).Nodup := by
  unfold updateSegment
  by_cases ha : segs.any (fun p => p.1 == i) = true
  · rwa [if_pos ha, keys_map_overwrite]
  · rw [if_neg ha, List.map_append]
    have hi : i ∉ segs.map Prod.fst := by
      intro hmem
      obtain ⟨p, hp, hpi⟩ := List.mem_map.mp hmem
      exact (not_any_key segs i (Bool.eq_false_iff.mpr ha)) p hp hpi
    simp [List.nodup_append, h, hi]

lemma getLast?_orOpt {l : List String} {a : String} :
    (a :: l).getLast? = orOpt l.getLast? (some a) := by
  cases l with
  | nil => rfl
  | cons b m =>
    rw [List.getLast?_cons_cons]
    obtain ⟨x, hx⟩ := Option.isSome_iff_exists.mp
      (List.getLast?_isSome.mpr (List.cons_ne_nil b m))
    rw [hx, orOpt_some]

lemma latestText_cons (m : Nat × String) (ms : List (Nat × String)) (j : Nat) :
    latestText (m :: ms) j
      = orOpt (latestText ms j) (if m.1 = j then some m.2 else none) := by
  unfold latestText
  by_cases hmj : m.1 = j
  · rw [List.filter_cons_of_pos (by simpa using hmj), List.map_cons, getLast?_orOpt,
      if_pos hmj]
  · rw [List.filter_cons_of_neg (by simpa using hmj), if_neg hmj]
    cases hx : ((ms.filter (fun m => m.1 == j)).map Prod.snd).getLast? <;>
      simp [orOpt, hx]

lemma lookupId_foldl_updates (msgs : List (Nat × String)) (s : List (Nat × String))
    (j : Nat) :
    lookupId (msgs.foldl (fun a m => updateSegment a m.1 m.2) s) j
      = orOpt (latestText msgs j) (lookupId s j) := by
  induction msgs generalizing s with
  | nil =>
    show lookupId s j = orOpt (latestText [] j) (lookupId s j)
    rw [show latestText [] j = none from rfl, orOpt_none]
  | cons m ms ih =>
    rw [List.foldl_cons, ih, latestText_cons, lookupId_updateSegment]
    cases hx : latestText ms j with
    | some v => simp only [orOpt_some]
    | none =>
      rw [orOpt_none, orOpt_none]
      by_cases hmj : m.1 = j
      · rw [if_pos hmj, if_pos hmj.symm, orOpt_some]
      · rw [if_neg hmj, if_neg (fun hj => hmj hj.symm), orOpt_none]

lemma lookupId_applyUpdates (msgs : List (Nat × String)) (j : Nat) :
    lookupId (applyUpdates msgs) j = latestText msgs j := by
  rw [applyUpdates, lookupId_foldl_updates]
  cases hx : latestText msgs j with
  | some v => rw [orOpt_some]
  | none => rw [orOpt_none]; rfl

lemma mem_keys_foldl_updates (msgs : List (Nat × String)) (s : List (Nat × String))
    (j : Nat) :
    (j ∈ ((msgs.foldl (fun a m => updateSegment a m.1 m.2) s).map Prod.fst))
      ↔ j ∈ s.map Prod.fst ∨ j ∈ msgs.map Prod.fst := by
  induction msgs generalizing s with
  | nil => simp
  | cons m ms ih =>
    rw [List.foldl_cons, ih, mem_keys_updateSegment]
    simp only [List.map_cons, List.mem_cons]
    tauto

lemma mem_keys_applyUpdates (msgs : List (Nat × String)) (j : Nat) :
    j ∈ (applyUpdates msgs).map Prod.fst ↔ j ∈ msgs.map Prod.fst := by
  rw [applyUpdates, mem_keys_foldl_updates]
  simp

lemma nodup_keys_foldl_updates (msgs : List (Nat × String)) (s : List (Nat × String))
    (h : (s.map Prod.fst).Nodup) :
    ((msgs.foldl (fun a m => updateSegment a m.1 m.2) s).map Prod.fst).Nodup := by
  induction msgs generalizing s with
  | nil => exact h
  | cons m ms ih =>
    rw [List.foldl_cons]
    exact ih _ (nodup_keys_updateSegment s m.1 m.2 h)

lemma nodup_keys_applyUpdates (msgs : List (Nat × String)) :
    ((applyUpdates msgs).map Prod.fst).Nodup :=
  nodup_keys_foldl_updates msgs [] (by simp)

lemma lookupId_eq_none_iff (segs : List (Nat × String)) (j : Nat) :
    lookupId segs j = none ↔ j ∉ segs.map Prod.fst := by
  induction segs with
  | nil => simp [lookupId]
  | cons p rest ih =>
    by_cases hpj : p.1 = j
    · simp [lookupId, hpj]
    · have hjp : j ≠ p.1 := fun hj => hpj hj.symm
      simp [lookupId, hpj, ih, hjp]

lemma lookupId_mem (segs : List (Nat × String)) (j : Nat) (v : String)
    (h : lookupId segs j = some v) : (j, v) ∈ segs := by
  induction segs with
  | nil => simp [lookupId] at h
  | cons p rest ih =>
    obtain ⟨a, b⟩ := p
    simp only [lookupId] at h
    by_cases haj : a = j
    · rw [if_pos (by simpa using haj)] at h
      injection h with hv
      subst haj
      subst hv
      exact List.mem_cons_self _ _
    · rw [if_neg (by simpa using haj)] at h
      exact List.mem_cons_of_mem _ (ih h)

lemma mem_lookupId (segs : List (Nat × String)) (j : Nat) (v : String)
    (hn : (segs.map Prod.fst).Nodup) (hm : (j, v) ∈ segs) :
    lookupId segs j = some v := by
  induction segs with
  | nil => simp at hm
  | cons p rest ih =>
    obtain ⟨a, b⟩ := p
    rw [List.map_cons, List.nodup_cons] at hn
    rcases List.mem_cons.mp hm with heq | hmem
    · injection heq with h1 h2
      subst h1
      subst h2
      simp [lookupId]
    · have haj : a ≠ j := by
        intro h
        subst h
        exact hn.1 (List.mem_map.mpr ⟨(a, v), hmem, rfl⟩)
      simp only [lookupId]
      rw [if_neg (by simpa using haj)]
      exact ih hn.2 hmem

lemma lookupId_perm (l l' : List (Nat × String)) (hp : l.Perm l')
    (hn : (l.map Prod.fst).Nodup) (j : Nat) :
    lookupId l j = lookupId l' j := by
  have hn' : (l'.map Prod.fst).Nodup := ((hp.map Prod.fst).nodup_iff).mp hn
  cases hx : lookupId l j with
  | none =>
    have hnm := (lookupId_eq_none_iff l j).mp hx
    symm
    rw [lookupId_eq_none_iff]
    exact fun hj => hnm (((hp.map Prod.fst).mem_iff).mpr hj)
  | some v =>
    exact (mem_lookupId l' j v hn' (hp.subset (lookupId_mem l j v hx))).symm

lemma sorted_nodup_lookup_ext :
    ∀ (l₁ l₂ : List (Nat × String)), l₁.Sorted keyLE → l₂.Sorted keyLE →
      (l₁.map Prod.fst).Nodup → (l₂.map Prod.fst).Nodup →
      (∀ j, lookupId l₁ j = lookupId l₂ j) → l₁ = l₂ := by
  intro l₁
  induction l₁ with
  | nil =>
    intro l₂ _ _ _ _ hl
    cases l₂ with
    | nil => rfl
    | cons q t₂ =>
      exfalso
      have h := (hl q.1).symm
      simp [lookupId] at h
  | cons p t₁ ih =>
    intro l₂ hs₁ hs₂ hn₁ hn₂ hl
    cases l₂ with
    | nil =>
      exfalso
      have h := hl p.1
      simp [lookupId] at h
    | cons q t₂ =>
      have hp1 : lookupId (p :: t₁) p.1 = some p.2 := by simp [lookupId]
      have hq1 : lookupId (q :: t₂) q.1 = some q.2 := by simp [lookupId]
      have hp2 : lookupId (q :: t₂) p.1 = some p.2 := by rw [← hl p.1]; exact hp1
      have hq2 : lookupId (p :: t₁) q.1 = some q.2 := by rw [hl q.1]; exact hq1
      have hqp : q.1 ≤ p.1 := by
        rcases List.mem_cons.mp (lookupId_mem _ _ _ hp2) with heq | hmem
        · have hq : q.1 = p.1 := by rw [← heq]
          exact hq.le
        · exact (List.sorted_cons.mp hs₂).1 _ hmem
      have hpq : p.1 ≤ q.1 := by
        rcases List.mem_cons.mp (lookupId_mem _ _ _ hq2) with heq | hmem
        · have hq : p.1 = q.1 := by rw [← heq]
          exact hq.le
        · exact (List.sorted_cons.mp hs₁).1 _ hmem
      have hkey : p.1 = q.1 := Nat.le_antisymm hpq hqp
      have hval : p.2 = q.2 := by
        have := hp2
        simp only [lookupId] at this
        rw [if_pos hkey.symm] at this
        injection this with hv
        exact hv.symm
      have hpq2 : p = q := Prod.ext hkey hval
      rw [List.map_cons, List.nodup_cons] at hn₁ hn₂
      have htl : ∀ j, lookupId t₁ j = lookupId t₂ j := by
        intro j
        by_cases hj : j = p.1
        · subst hj
          rw [(lookupId_eq_none_iff t₁ p.1).mpr hn₁.1,
            (lookupId_eq_none_iff t₂ p.1).mpr (hkey ▸ hn₂.1)]
        · have h := hl j
          simp only [lookupId] at h
          rw [if_neg (fun hc : p.1 = j => hj hc.symm),
            if_neg (fun hc : q.1 = j => hj (hkey.trans hc).symm)] at h
          exact h
      rw [hpq2, ih t₂ (List.sorted_cons.mp hs₁).2 (List.sorted_cons.mp hs₂).2
        hn₁.2 hn₂.2 htl]

lemma latestText_eq_none_iff (msgs : List (Nat × String)) (j : Nat) :
    latestText msgs j = none ↔ j ∉ msgs.map Prod.fst := by
  unfold latestText
  rw [List.getLast?_eq_none_iff, List.map_eq_nil_iff, List.filter_eq_nil_iff]
  constructor
  · intro h hj
    obtain ⟨m, hm, rfl⟩ := List.mem_map.mp hj
    exact h m hm (by simp)
  · intro h m hm hbeq
    exact h (List.mem_map.mpr ⟨m, hm, by simpa using hbeq⟩)

lemma mem_sortedIds (msgs : List (Nat × String)) (j : Nat) :
    j ∈ sortedIds msgs ↔ j ∈ msgs.map Prod.fst := by
  unfold sortedIds
  rw [List.mem_insertionSort, List.mem_dedup]

lemma nodup_sortedIds (msgs : List (Nat × String)) : (sortedIds msgs).Nodup :=
  ((List.perm_insertionSort _ _).nodup_iff).mpr (List.nodup_dedup _)

lemma sorted_sortedIds (msgs : List (Nat × String)) :
    (sortedIds msgs).Sorted (· ≤ ·) :=
  List.sorted_insertionSort _ _

lemma lookupId_map_pair (ids : List Nat) (g : Nat → String) (j : Nat) :
    lookupId (ids.map (fun i => (i, g i))) j
      = if j ∈ ids then some (g j) else none := by
  induction ids with
  | nil => simp [lookupId]
  | cons i ids ih =>
    by_cases hij : i = j
    · subst hij
      simp [lookupId]
    · have hji : j ≠ i := fun hj => hij hj.symm
      simp [lookupId, hij, hji, ih]

lemma lookupId_latestEntries (msgs : List (Nat × String)) (j : Nat) :
    lookupId (latestEntries msgs) j = latestText msgs j := by
  unfold latestEntries
  rw [lookupId_map_pair]
  by_cases hj : j ∈ sortedIds msgs
  · rw [if_pos hj]
    have hmem : j ∈ msgs.map Prod.fst := (mem_sortedIds msgs j).mp hj
    have hne : latestText msgs j ≠ none :=
      fun h => ((latestText_eq_none_iff msgs j).mp h) hmem
    obtain ⟨x, hx⟩ := Option.ne_none_iff_exists'.mp hne
    rw [hx]
    simp
  · rw [if_neg hj]
    symm
    rw [latestText_eq_none_iff]
    exact fun hmem => hj ((mem_sortedIds msgs j).mpr hmem)

lemma keys_latestEntries (msgs : List (Nat × String)) :
    (latestEntries msgs).map Prod.fst = sortedIds msgs := by
  unfold latestEntries
  rw [List.map_map]
  exact List.map_id _

lemma sorted_latestEntries (msgs : List (Nat × String)) :
    (latestEntries msgs).Sorted keyLE := by
  unfold latestEntries
  rw [List.Sorted, List.pairwise_map]
  exact sorted_sortedIds msgs

lemma insertionSort_applyUpdates_eq (msgs : List (Nat × String)) :
    (applyUpdates msgs).insertionSort keyLE = latestEntries msgs := by
  have hperm := List.perm_insertionSort keyLE (applyUpdates msgs)
  have hnsort : (((applyUpdates msgs).insertionSort keyLE).map Prod.fst).Nodup :=
    ((hperm.map Prod.fst).nodup_iff).mpr (nodup_keys_applyUpdates msgs)
  apply sorted_nodup_lookup_ext
  · exact List.sorted_insertionSort keyLE _
  · exact sorted_latestEntries msgs
  · exact hnsort
  · rw [keys_latestEntries]
    exact nodup_sortedIds msgs
  · intro j
    rw [lookupId_latestEntries, ← lookupId_applyUpdates]
    exact lookupId_perm _ _ hperm hnsort j

lemma filterMap_eq_map_of_forall_some (g : Nat → Option String) (d : Nat → String)
    (ids : List Nat) (h : ∀ i ∈ ids, g i = some (d i)) :
    ids.filterMap g = ids.map d := by
  induction ids with
  | nil => rfl
  | cons i ids ih =>
    rw [List.filterMap_cons_some (h i (List.mem_cons_self i ids)), List.map_cons,
      ih (fun x hx => h x (List.mem_cons_of_mem i hx))]

lemma filterMap_latestText_eq (msgs : List (Nat × String)) :
    (sortedIds msgs).filterMap (latestText msgs)
      = (latestEntries msgs).map Prod.snd := by
  unfold latestEntries
  rw [List.map_map]
  refine filterMap_eq_map_of_forall_some _ _ _ fun i hi => ?_
  have hmem : i ∈ msgs.map Prod.fst := (mem_sortedIds msgs i).mp hi
  have hne : latestText msgs i ≠ none :=
    fun h => ((latestText_eq_none_iff msgs i).mp h) hmem
  obtain ⟨x, hx⟩ := Option.ne_none_iff_exists'.mp hne
  show latestText msgs i = some ((latestText msgs i).getD "")
  rw [hx]
  rfl

lemma specAssembledAmended_eq_filter_map (msgs : List (Nat × String)) :
    specAssembledAmended msgs
      = String.intercalate " "
          ((((applyUpdates msgs).insertionSort keyLE).filter
            (fun p => pyNonblank p.2)).map Prod.snd) := by
  rw [specAssembledAmended, filterMap_latestText_eq, insertionSort_applyUpdates_eq,
    List.filter_map]
  rfl

lemma buildCompleteText_applyUpdates (msgs : List (Nat × String)) :
    buildCompleteText (applyUpdates msgs) = specAssembledAmended msgs := by
  rw [buildCompleteText]
  by_cases he : (applyUpdates msgs).isEmpty = true
  · rw [if_pos he]
    have hnil : applyUpdates msgs = [] := List.isEmpty_iff.mp he
    have hmsgs : msgs = [] := by
      have hkeys : msgs.map Prod.fst = [] := by
        rw [List.eq_nil_iff_forall_not_mem]
        intro j hj
        have := (mem_keys_applyUpdates msgs j).mpr hj
        rw [hnil] at this
        simp at this
      exact List.map_eq_nil_iff.mp hkeys
    subst hmsgs
    rfl
  · rw [if_neg he, specAssembledAmended_eq_filter_map]

lemma runSession_segments (st : EngineState) (frames : List Frame) :
    (runSession st frames).segments
      = (sessionUpdates frames).foldl (fun s m => updateSegment s m.1 m.2)
          st.segments := by
  induction frames generalizing st with
  | nil => rfl
  | cons f fs ih =>
    have hstep : runSession st (f :: fs) = runSession (onMessage st f) fs := rfl
    rw [hstep, ih]
    have hsess : sessionUpdates (f :: fs) = frameUpdates f ++ sessionUpdates fs := by
      simp [sessionUpdates]
    rw [hsess, List.foldl_append]
    cases f with
    | undecodable => rfl
    | checkpointFinal => rfl
    | withSegments segs =>
      simp [onMessage, frameUpdates, applySegments_eq_foldl_goodLead]
    | other => rfl

/-- C1 (amended): after any sequence of inbound frames — hence after every
mutation of the transcript state, in any arrival order — the engine's
assembled text equals the space-joined latest text per segment id, ordered by
ascending numeric id and restricted to the texts that are non-empty after
stripping whitespace. -/
theorem C1_assembled_text_invariant (frames : List Frame) :
    buildCompleteText (runSession initialEngine frames).segments
      = specAssembledAmended (sessionUpdates frames) := by
  rw [runSession_segments]
  exact buildCompleteText_applyUpdates (sessionUpdates frames)

/-- C1 counterexample: a segment whose text is a single space is a non-empty
text, so the claim's assembled text keeps it, but the code's
`if segment[1].strip()` filter drops it. -/
theorem C1_counterexample :
    buildCompleteText
        (runSession initialEngine [Frame.withSegments [JsonSeg.good 1 " "]]).segments
      ≠ specAssembledClaim (sessionUpdates [Frame.withSegments [JsonSeg.good 1 " "]]) := by
  decide
